import Mathlib

/-!
Shallow embedding of the core of `scripts/scrapers/forum_scraper/forum_dump.py`:
the permissive date parser, the selector-driven field extractors, the
"load more" URL-discovery loop and the checkpointed run loop, together with
theorems about their behaviour.  The browser driver and the CSS query engine
are external collaborators; a parsed document is modelled as a node carrying
its text renderings, its relevant attributes, and the query results for each
selector string (in document order).
-/

/-! ### Character and string helpers (the Python `str` primitives used) -/

/-- ASCII whitespace, as stripped by Python `str.strip()` on the inputs the
scraper sees. -/
def isSpaceC (c : Char) : Bool :=
  c = ' ' || c = '\t' || c = '\n' || c = '\r' || c = '\x0b' || c = '\x0c'

/-- Python `str.strip()` on a list of characters. -/
def pyStrip (cs : List Char) : List Char :=
  ((cs.dropWhile isSpaceC).reverse.dropWhile isSpaceC).reverse

def digitVal (c : Char) : Nat := c.toNat - 48

/-- Decimal value of a digit string. -/
def charsToNat (cs : List Char) : Nat :=
  cs.foldl (fun n c => 10 * n + digitVal c) 0

/-- Does the second list occur at the start of the first? -/
def lcStartsWith : List Char → List Char → Bool
  | _, [] => true
  | [], _ :: _ => false
  | c :: cs, p :: ps => c = p && lcStartsWith cs ps

/-- Does `pat` occur as a contiguous substring (Python `in` on strings)? -/
def isInfixB (pat : List Char) : List Char → Bool
  | [] => lcStartsWith [] pat
  | c :: cs => lcStartsWith (c :: cs) pat || isInfixB pat cs

/-- Does `suf` occur at the end of `cs`? -/
def lcEndsWith (cs suf : List Char) : Bool :=
  lcStartsWith cs.reverse suf.reverse

/-- Characters before the first occurrence of the (non-empty) separator:
Python `s.split(sep)[0]`. -/
def upToSep (sep : List Char) : List Char → List Char
  | [] => []
  | c :: cs => if lcStartsWith (c :: cs) sep then [] else c :: upToSep sep cs

/-- Replace every occurrence of the character `z` by `rep`
(Python `s.replace("Z", "+00:00")` has a one-character pattern). -/
def replaceChar (z : Char) (rep : List Char) : List Char → List Char
  | [] => []
  | c :: cs => if c = z then rep ++ replaceChar z rep cs else c :: replaceChar z rep cs

/-- ASCII lower-casing; the scraper's status vocabulary and marker phrases are
ASCII, where Python `str.lower()` agrees with this. -/
def lowerC (c : Char) : Char :=
  if 'A' ≤ c && c ≤ 'Z' then Char.ofNat (c.toNat + 32) else c

def asciiLower (s : String) : String := ⟨s.data.map lowerC⟩

/-- First match of the regex `(\d[\d,]*)`, commas removed, as a number
(Python `int(match.group(1).replace(",", ""))`). -/
def firstNumComma : List Char → Option Nat
  | [] => none
  | c :: cs =>
    if c.isDigit then
      some (charsToNat (((c :: cs).takeWhile fun ch => ch.isDigit || ch = ',').filter Char.isDigit))
    else firstNumComma cs

/-- First match of the regex `(\d+)`, as a number. -/
def firstNumPlain : List Char → Option Nat
  | [] => none
  | c :: cs =>
    if c.isDigit then some (charsToNat ((c :: cs).takeWhile Char.isDigit))
    else firstNumPlain cs

/-! ### Dates: embedding of `parse_date`

`parse_date` tries `strptime` with `%Y-%m-%d`, `%Y-%m-%d %H:%M:%S`,
`%Y/%m/%d` and `%m/%d/%Y` in that order, then `datetime.fromisoformat` on the
string with `Z` replaced by `+00:00`, and yields `None` when all fail.  The
field parsers below reproduce the CPython `_strptime` directive patterns
(`%Y` exactly four digits, `%m`/`%d`/`%H`/`%M`/`%S` one or two digits with the
documented alternations), the full-consumption check, and the calendar
validation done by the `datetime` constructor.  Timezone offsets accepted by
the ISO fallback are validated and discarded: the pipeline always compares the
naive components. -/

structure PDate where
  year : Nat
  month : Nat
  day : Nat
  hour : Nat
  minute : Nat
  second : Nat
  deriving DecidableEq

/-- `a <= b` on naive datetimes (lexicographic on components). -/
def pdateLe (a b : PDate) : Bool :=
  if a.year ≠ b.year then decide (a.year < b.year)
  else if a.month ≠ b.month then decide (a.month < b.month)
  else if a.day ≠ b.day then decide (a.day < b.day)
  else if a.hour ≠ b.hour then decide (a.hour < b.hour)
  else if a.minute ≠ b.minute then decide (a.minute < b.minute)
  else decide (a.second ≤ b.second)

def isLeap (y : Nat) : Bool :=
  (y % 4 == 0 && !(y % 100 == 0)) || y % 400 == 0

def daysInMonth (y m : Nat) : Nat :=
  if m = 2 then (if isLeap y then 29 else 28)
  else if m = 4 ∨ m = 6 ∨ m = 9 ∨ m = 11 then 30
  else 31

def validYMD (y m d : Nat) : Bool :=
  decide (1 ≤ y) && decide (y ≤ 9999) && decide (1 ≤ m) && decide (m ≤ 12) &&
    decide (1 ≤ d) && decide (d ≤ daysInMonth y m)

/-- The `datetime(...)` constructor: calendar and range validation. -/
def mkPDate (y m d hh mi ss : Nat) : Option PDate :=
  if validYMD y m d && decide (hh ≤ 23) && decide (mi ≤ 59) && decide (ss ≤ 59) then
    some ⟨y, m, d, hh, mi, ss⟩
  else none

/-- Exactly four digits (`%Y`). -/
def read4 : List Char → Option (Nat × List Char)
  | a :: b :: c :: d :: rest =>
    if a.isDigit && b.isDigit && c.isDigit && d.isDigit then
      some (charsToNat [a, b, c, d], rest)
    else none
  | _ => none

/-- `%m` candidates, in the regex alternation order `1[0-2]|0[1-9]|[1-9]`. -/
def monthCands : List Char → List (Nat × List Char)
  | a :: b :: rest =>
    (if a = '1' && ('0' ≤ b && b ≤ '2') then [(10 + digitVal b, rest)]
     else if a = '0' && ('1' ≤ b && b ≤ '9') then [(digitVal b, rest)]
     else []) ++
    (if '1' ≤ a && a ≤ '9' then [(digitVal a, b :: rest)] else [])
  | [a] => if '1' ≤ a && a ≤ '9' then [(digitVal a, [])] else []
  | [] => []

/-- `%d` candidates, order `3[01]|[12]\d|0[1-9]|[1-9]`. -/
def dayCands : List Char → List (Nat × List Char)
  | a :: b :: rest =>
    (if a = '3' && (b = '0' || b = '1') then [(30 + digitVal b, rest)]
     else if (a = '1' || a = '2') && b.isDigit then [(10 * digitVal a + digitVal b, rest)]
     else if a = '0' && ('1' ≤ b && b ≤ '9') then [(digitVal b, rest)]
     else []) ++
    (if '1' ≤ a && a ≤ '9' then [(digitVal a, b :: rest)] else [])
  | [a] => if '1' ≤ a && a ≤ '9' then [(digitVal a, [])] else []
  | [] => []

/-- `%H` candidates, order `2[0-3]|[0-1]\d|\d`. -/
def hourCands : List Char → List (Nat × List Char)
  | a :: b :: rest =>
    (if a = '2' && ('0' ≤ b && b ≤ '3') then [(20 + digitVal b, rest)]
     else if (a = '0' || a = '1') && b.isDigit then [(10 * digitVal a + digitVal b, rest)]
     else []) ++
    (if a.isDigit then [(digitVal a, b :: rest)] else [])
  | [a] => if a.isDigit then [(digitVal a, [])] else []
  | [] => []

/-- `%M` / `%S` candidates, order `[0-5]\d|\d`. -/
def minSecCands : List Char → List (Nat × List Char)
  | a :: b :: rest =>
    (if ('0' ≤ a && a ≤ '5') && b.isDigit then [(10 * digitVal a + digitVal b, rest)]
     else []) ++
    (if a.isDigit then [(digitVal a, b :: rest)] else [])
  | [a] => if a.isDigit then [(digitVal a, [])] else []
  | [] => []

/-- Backtracking over field candidates. -/
def pickFirst {α β : Type} (f : α → Option β) : List α → Option β
  | [] => none
  | a :: rest =>
    match f a with
    | some b => some b
    | none => pickFirst f rest

/-- `strptime` with format `%Y<sep>%m<sep>%d` (full match, calendar checked). -/
def pYmdSep (sep : Char) (cs : List Char) : Option PDate :=
  match read4 cs with
  | some (y, s1 :: r1) =>
    if s1 = sep then
      pickFirst (fun mc =>
        match mc with
        | (m, s2 :: r2) =>
          if s2 = sep then
            pickFirst (fun dc =>
              match dc with
              | (d, ([] : List Char)) => mkPDate y m d 0 0 0
              | _ => none) (dayCands r2)
          else none
        | _ => none) (monthCands r1)
    else none
  | _ => none

/-- `strptime` with format `%Y-%m-%d %H:%M:%S`. -/
def pYmdHms (cs : List Char) : Option PDate :=
  match read4 cs with
  | some (y, '-' :: r1) =>
    pickFirst (fun mc =>
      match mc with
      | (m, '-' :: r2) =>
        pickFirst (fun dc =>
          match dc with
          | (d, ' ' :: r3) =>
            pickFirst (fun hc =>
              match hc with
              | (hh, ':' :: r4) =>
                pickFirst (fun nc =>
                  match nc with
                  | (mi, ':' :: r5) =>
                    pickFirst (fun sc =>
                      match sc with
                      | (ss, ([] : List Char)) => mkPDate y m d hh mi ss
                      | _ => none) (minSecCands r5)
                  | _ => none) (minSecCands r4)
              | _ => none) (hourCands r3)
          | _ => none) (dayCands r2)
      | _ => none) (monthCands r1)
  | _ => none

/-- `strptime` with format `%m/%d/%Y`. -/
def pMdy (cs : List Char) : Option PDate :=
  pickFirst (fun mc =>
    match mc with
    | (m, '/' :: r1) =>
      pickFirst (fun dc =>
        match dc with
        | (d, '/' :: r2) =>
          match read4 r2 with
          | some (y, ([] : List Char)) => mkPDate y m d 0 0 0
          | _ => none
        | _ => none) (dayCands r1)
    | _ => none) (monthCands cs)

/-- `HH[:MM[:SS[.fff or .ffffff]]]` with exact two-digit fields, as accepted
by the pre-3.11 `fromisoformat` time parser (fraction discarded). -/
def parse_hmsff : List Char → Option (Nat × Nat × Nat)
  | h1 :: h2 :: rest =>
    if h1.isDigit && h2.isDigit then
      let hh := charsToNat [h1, h2]
      match rest with
      | [] => some (hh, 0, 0)
      | ':' :: m1 :: m2 :: rest2 =>
        if m1.isDigit && m2.isDigit then
          let mi := charsToNat [m1, m2]
          match rest2 with
          | [] => some (hh, mi, 0)
          | ':' :: s1 :: s2 :: rest3 =>
            if s1.isDigit && s2.isDigit then
              let ss := charsToNat [s1, s2]
              match rest3 with
              | [] => some (hh, mi, ss)
              | '.' :: frac =>
                if (decide (frac.length = 3) || decide (frac.length = 6)) &&
                    frac.all Char.isDigit then
                  some (hh, mi, ss)
                else none
              | _ => none
            else none
          | _ => none
        else none
      | _ => none
    else none
  | _ => none

/-- Split at the first occurrence of `z`, dropping it. -/
def splitAtChar (z : Char) : List Char → Option (List Char × List Char)
  | [] => none
  | c :: cs =>
    if c = z then some ([], cs)
    else
      match splitAtChar z cs with
      | some (a, b) => some (c :: a, b)
      | none => none

/-- The timezone split of `fromisoformat`: first `-`, else first `+`. -/
def splitTz (cs : List Char) : List Char × Option (List Char) :=
  match splitAtChar '-' cs with
  | some (a, b) => (a, some b)
  | none =>
    match splitAtChar '+' cs with
    | some (a, b) => (a, some b)
    | none => (cs, none)

/-- Validate (and discard) an ISO timezone offset suffix. -/
def tzOk : Option (List Char) → Bool
  | none => true
  | some tz =>
    (decide (tz.length = 5) || decide (tz.length = 8) || decide (tz.length = 15)) &&
      (match parse_hmsff tz with
       | some (hh, mi, ss) => decide (hh ≤ 23) && decide (mi ≤ 59) && decide (ss ≤ 59)
       | none => false)

/-- Pre-3.11 `datetime.fromisoformat`: exact `YYYY-MM-DD`, optionally a single
separator character and `HH[:MM[:SS[.frac]]]`, optionally an offset. -/
def isoParse (cs : List Char) : Option PDate :=
  match cs with
  | y1 :: y2 :: y3 :: y4 :: '-' :: m1 :: m2 :: '-' :: d1 :: d2 :: rest =>
    if [y1, y2, y3, y4, m1, m2, d1, d2].all Char.isDigit then
      let y := charsToNat [y1, y2, y3, y4]
      let m := charsToNat [m1, m2]
      let d := charsToNat [d1, d2]
      match rest with
      | [] => mkPDate y m d 0 0 0
      | _ :: trest =>
        match splitTz trest with
        | (timecs, tzo) =>
          match parse_hmsff timecs with
          | some (hh, mi, ss) => if tzOk tzo then mkPDate y m d hh mi ss else none
          | none => none
    else none
  | _ => none

/-- Embedding of `parse_date` from `forum_dump.py`. -/
def parse_date (value : Option String) : Option PDate :=
  match value with
  | none => none
  | some v =>
    let raw := pyStrip v.data
    if raw = [] then none
    else
      match pYmdSep '-' raw with
      | some d => some d
      | none =>
        match pYmdHms raw with
        | some d => some d
        | none =>
          match pYmdSep '/' raw with
          | some d => some d
          | none =>
            match pMdy raw with
            | some d => some d
            | none => isoParse (replaceChar 'Z' "+00:00".data raw)

def pad2 (n : Nat) : String := if n < 10 then "0" ++ toString n else toString n

def pad4 (n : Nat) : String :=
  if n < 10 then "000" ++ toString n
  else if n < 100 then "00" ++ toString n
  else if n < 1000 then "0" ++ toString n
  else toString n

/-- Python `dt.strftime("%Y-%m-%d %H:%M:%S")`. -/
def fmtYmdHms (d : PDate) : String :=
  pad4 d.year ++ "-" ++ pad2 d.month ++ "-" ++ pad2 d.day ++ " " ++
    pad2 d.hour ++ ":" ++ pad2 d.minute ++ ":" ++ pad2 d.second

/-! ### Document model

A rendered element: the two text renderings the scraper asks BeautifulSoup
for (`get_text(strip=True)` and `get_text(separator="\n", strip=True)`), the
`aria-label` and `datetime` attributes, and the CSS query results (`sub` maps
a selector string to the matched descendant nodes in document order; the
query engine itself is the out-of-scope parsing library). -/

inductive Node where
  | mk (text textNl ariaLabel : String) (datetimeAttr : Option String)
      (sub : List (String × List Node))

def Node.text : Node → String
  | .mk t _ _ _ _ => t

def Node.textNl : Node → String
  | .mk _ t _ _ _ => t

def Node.ariaLabel : Node → String
  | .mk _ _ a _ _ => a

def Node.datetimeAttr : Node → Option String
  | .mk _ _ _ d _ => d

def lookupSel (key : String) : List (String × List Node) → List Node
  | [] => []
  | (k, v) :: rest => if k = key then v else lookupSel key rest

/-- `soup.select(sel)` (all matches, document order). -/
def Node.selAll (n : Node) (sel : String) : List Node :=
  match n with
  | .mk _ _ _ _ sub => lookupSel sel sub

/-- `soup.select_one(sel)` (first match). -/
def Node.selOne (n : Node) (sel : String) : Option Node :=
  (n.selAll sel).head?

/-! ### Site configuration

A selector entry may be a single CSS selector or an ordered fallback list
(`isinstance(selector_config, list)` in `_select_text`).  The typed fields
follow how each key is consumed by the source: `title`, `author`,
`description` and `accepted_marker` accept either shape; the remaining keys
are used directly as single selector strings. -/

inductive SelSpec where
  | one (s : String)
  | many (ss : List String)

def selList : SelSpec → List String
  | .one s => [s]
  | .many ss => ss

/-- Python truthiness of a selector config (`if primary_selector:`). -/
def selTruthy : SelSpec → Bool
  | .one s => !(s = "")
  | .many ss => !(ss = [])

structure SiteSelectors where
  title : Option SelSpec
  author : Option SelSpec
  date : Option String
  description : Option SelSpec
  tags : Option String
  status_labels : Option String
  reply_container : Option String
  reply_body : Option String
  reply_author : Option String
  accepted_marker : Option SelSpec

structure SiteConfig where
  selectors : SiteSelectors
  resolved_terms : List String
  unresolved_terms : List String

/-! ### Field extractors -/

/-- The selector chain denoted by an optional selector config; a missing key
behaves as the empty chain (`_select_text` skips a `None` entry). -/
def selSpecList : Option SelSpec → List String
  | none => []
  | some sp => selList sp

/-- The loop of `_select_text`: skip falsy selectors, return the first
non-empty stripped text. -/
def selectTextGo (doc : Node) : List String → String
  | [] => ""
  | s :: rest =>
    if s = "" then selectTextGo doc rest
    else
      match doc.selOne s with
      | some el => if el.text = "" then selectTextGo doc rest else el.text
      | none => selectTextGo doc rest

/-- Embedding of `_select_text`. -/
def select_text (doc : Node) (cfg : Option SelSpec) : String :=
  selectTextGo doc (selSpecList cfg)

/-- Embedding of `_extract_title`: the configured chain, else the `<title>`
element with a trailing `" | ..."` site suffix removed. -/
def extract_title (sel : SiteSelectors) (doc : Node) : String :=
  let title := select_text doc sel.title
  if title ≠ "" then title
  else
    match doc.selOne "title" with
    | some el => (⟨pyStrip (upToSep " | ".data el.text.data)⟩ : String)
    | none => ""

/-- Embedding of `_extract_author`: truthy primary selector first, then the
generic `.author-info` fallback. -/
def extract_author (sel : SiteSelectors) (doc : Node) : String :=
  let fromPrimary :=
    match sel.author with
    | some sp => if selTruthy sp then select_text doc (some sp) else ""
    | none => ""
  if fromPrimary ≠ "" then fromPrimary
  else
    match doc.selOne ".author-info" with
    | some el => el.text
    | none => ""

/-- Format a parsed machine-readable date, preserving the raw attribute
verbatim when it does not parse. -/
def fmtOrRaw (dt : String) : String :=
  match parse_date (some dt) with
  | some p => fmtYmdHms p
  | none => dt

/-- The `time[datetime]` fallback arm of `_extract_post_date`. -/
def postDateFallback (doc : Node) : String :=
  match doc.selOne "time[datetime]" with
  | some el =>
    match el.datetimeAttr with
    | some dt => if dt ≠ "" then fmtOrRaw dt else ""
    | none => ""
  | none => ""

/-- Embedding of `_extract_post_date`. -/
def extract_post_date (sel : SiteSelectors) (doc : Node) : String :=
  match doc.selOne (sel.date.getD "time[datetime]") with
  | some el =>
    match el.datetimeAttr with
    | some dt => if dt ≠ "" then fmtOrRaw dt else postDateFallback doc
    | none => postDateFallback doc
  | none => postDateFallback doc

/-- The default description selector list. -/
def descDefaults : List String :=
  [".threaded-topic-body-wrapper", ".qa-topic-post-box",
   ".post__content--new-editor", ".post__content"]

def descList : Option SelSpec → List String
  | none => descDefaults
  | some sp => selList sp

/-- The loop of `_extract_description`: the first selector whose element is
present wins, even when its joined text is empty. -/
def extractDescGo (doc : Node) : List String → String
  | [] => ""
  | s :: rest =>
    match doc.selOne s with
    | some el => el.textNl
    | none => extractDescGo doc rest

/-- Embedding of `_extract_description`. -/
def extract_description (cfg : Option SelSpec) (doc : Node) : String :=
  extractDescGo doc (descList cfg)

/-- Embedding of `_extract_tags`: all matches, deduplicated keeping the
first-seen order, empty texts dropped. -/
def extract_tags (sel : SiteSelectors) (doc : Node) : List String :=
  (doc.selAll (sel.tags.getD "a[href*=\"search_type=tag\"]")).foldl
    (fun acc el =>
      let tag := el.text
      if tag ≠ "" ∧ tag ∉ acc then acc ++ [tag] else acc) []

/-- Phase two of `_extract_stat`: the generic class-pattern selectors. -/
def statFromClasses (doc : Node) : List String → Nat
  | [] => 0
  | s :: rest =>
    match doc.selOne s with
    | some el =>
      match firstNumComma el.text.data with
      | some n => n
      | none => statFromClasses doc rest
    | none => statFromClasses doc rest

/-- Embedding of `_extract_stat`. -/
def extract_stat (doc : Node) (keyword : String) : Nat :=
  let classSels := ["." ++ keyword ++ "-count", "." ++ keyword ++ "s",
    "[class*=\"" ++ keyword ++ "\"]"]
  match doc.selOne ("[aria-label*=\"" ++ keyword ++ "\"]") with
  | some el =>
    match firstNumComma (el.ariaLabel ++ " " ++ el.text).data with
    | some n => n
    | none => statFromClasses doc classSels
  | none => statFromClasses doc classSels

/-- Embedding of `_extract_status`: full resolved scan before any unresolved
scan, then the best-answer marker, else unknown. -/
def extract_status (cfg : SiteConfig) (doc : Node) : String :=
  let labels := (doc.selAll (cfg.selectors.status_labels.getD ".label-component")).map
    (fun el => asciiLower el.text)
  let resolvedTerms := cfg.resolved_terms.map asciiLower
  let unresolvedTerms := cfg.unresolved_terms.map asciiLower
  if labels.any (fun l => resolvedTerms.any fun t => isInfixB t.data l.data) then "resolved"
  else if labels.any (fun l => unresolvedTerms.any fun t => isInfixB t.data l.data) then
    "unresolved"
  else if (doc.selOne ".best-answer").isSome then "resolved"
  else "unknown"

structure Reply where
  author : String
  date : String
  text : String
  is_accepted : Bool
  likes : Nat
  deriving DecidableEq

def rolePhrases : List String :=
  ["Accepted solution", "Author", "Adobe Employee", "Community Expert", "Correct answer"]

/-- The author clean-up
`re.sub(r"(Accepted solution|Author|Adobe Employee|Community Expert|Correct answer)$", "", t)`:
the leftmost anchored match removes the longest suffix equal to a phrase. -/
def stripRolePhrase (cs : List Char) : List Char :=
  let best := (rolePhrases.filter fun p => lcEndsWith cs p.data).foldl
    (fun b p => if b.length < p.length then p else b) ""
  cs.take (cs.length - best.length)

/-- Embedding of `_extract_replies`. -/
def extract_replies (cfg : SiteConfig) (doc : Node) : List Reply :=
  let bsel := cfg.selectors.reply_body.getD ".threaded-reply-body-wrapper"
  let asel := cfg.selectors.reply_author.getD ".author-info"
  let lsel := cfg.selectors.status_labels.getD ".label-component"
  let markers :=
    match cfg.selectors.accepted_marker with
    | some sp => selList sp
    | none => [".best-answer", ".label--success"]
  (doc.selAll (cfg.selectors.reply_container.getD ".threaded-reply-item")).foldl
    (fun acc item =>
      let author0 :=
        match item.selOne asel with
        | some el => el.text
        | none => ""
      let author := (⟨pyStrip (stripRolePhrase author0.data)⟩ : String)
      let date :=
        match item.selOne "time[datetime]" with
        | some el =>
          match el.datetimeAttr with
          | some dt => if dt ≠ "" then fmtOrRaw dt else ""
          | none => ""
        | none => ""
      let text :=
        match item.selOne bsel with
        | some el => el.textNl
        | none => ""
      let acceptedByMarker := markers.any fun m => (item.selOne m).isSome
      let acceptedByLabel :=
        (item.selAll lsel).any fun l => isInfixB "accepted solution".data (asciiLower l.text).data
      let likes :=
        match item.selOne "[aria-label*=\"like\"], [aria-label*=\"kudo\"]" with
        | some el => (firstNumPlain (el.ariaLabel ++ " " ++ el.text).data).getD 0
        | none => 0
      let r : Reply := ⟨author, date, text, acceptedByMarker || acceptedByLabel, likes⟩
      if r.text ≠ "" ∨ r.author ≠ "" then acc ++ [r] else acc)
    []

/-! ### Thread extraction -/

structure ThreadFields where
  url : String
  title : String
  author : String
  date_posted : String
  description : String
  tags : List String
  views : Nat
  replies_count : Nat
  likes : Nat
  status : String
  accepted_answer : Option Reply
  comments : List Reply
  scraped_at : String
  deriving DecidableEq

/-- A thread record: the success variant with the full field set, or the
degenerate error variant carrying exactly url, error and scraped_at (the
dict literal in the `except` arm of `extract_thread`). -/
inductive ThreadRecord where
  | success (t : ThreadFields)
  | failure (url : String) (error : String) (scraped_at : String)
  deriving DecidableEq

/-- Python `a or b` on non-negative ints. -/
def pyOrNat (a b : Nat) : Nat := if a = 0 then b else a

/-- The reply loop of `extract_thread`: each accepted reply overwrites
`accepted_answer`, every reply is appended to `comments`. -/
def acceptedFold (replies : List Reply) : Option Reply × List Reply :=
  replies.foldl
    (fun p r => ((if r.is_accepted then some r else p.1), p.2 ++ [r]))
    (none, [])

/-- The success-variant record built by `extract_thread` from a parsed page. -/
def successFields (cfg : SiteConfig) (url : String) (doc : Node) (now : String) :
    ThreadFields :=
  let ac := acceptedFold (extract_replies cfg doc)
  { url := url
    title := extract_title cfg.selectors doc
    author := extract_author cfg.selectors doc
    date_posted := extract_post_date cfg.selectors doc
    description := extract_description cfg.selectors.description doc
    tags := extract_tags cfg.selectors doc
    views := extract_stat doc "view"
    replies_count := pyOrNat (extract_stat doc "repl") ac.2.length
    likes := pyOrNat (extract_stat doc "like") (extract_stat doc "kudo")
    status := extract_status cfg doc
    accepted_answer := ac.1
    comments := ac.2
    scraped_at := now }

/-- Embedding of `extract_thread`: the fetch result is either the parsed
document or the exception raised while navigating/parsing. -/
def extract_thread (cfg : SiteConfig) (url : String) (fetched : Except String Node)
    (now : String) : ThreadRecord :=
  match fetched with
  | .ok doc => .success (successFields cfg url doc now)
  | .error e => .failure url e now

/-! ### URL discovery -/

/-- `re.sub(r"\?.*$", "", href)` on a query string without embedded newlines:
everything from the first `?` on is dropped. -/
def stripQuery (cs : List Char) : List Char := cs.takeWhile fun c => !(c == '?')

/-- Python `href.lstrip("/")`. -/
def lstripSlash (cs : List Char) : List Char := cs.dropWhile fun c => c == '/'

/-- Canonicalize one href: strip the query string, then resolve non-absolute
links as `thread_base + "/" + href.lstrip("/")`. -/
def canonicalize (base href : String) : String :=
  let h := stripQuery href.data
  if lcStartsWith h "http".data then (⟨h⟩ : String)
  else base ++ "/" ++ (⟨lstripSlash h⟩ : String)

/-- Does the regex `-\d{3,}$` match (trailing numeric id of three or more
digits, preceded by a hyphen)? -/
def hasNumericIdSuffix (s : String) : Bool :=
  let r := s.data.reverse
  let ds := r.takeWhile Char.isDigit
  decide (3 ≤ ds.length) &&
    (match r.drop ds.length with
     | '-' :: _ => true
     | _ => false)

/-- The Scanning phase over one round's link list: canonicalize, require the
numeric-id suffix, and append unseen URLs; the second component counts
`new_this_round`. -/
def processLinks (base : String) (links : List String) (urls : List String) :
    List String × Nat :=
  match links with
  | [] => (urls, 0)
  | href :: rest =>
    let h := canonicalize base href
    if hasNumericIdSuffix h then
      if h ∈ urls then processLinks base rest urls
      else
        let r := processLinks base rest (urls ++ [h])
        (r.1, r.2 + 1)
    else processLinks base rest urls

/-- Truthiness of an optional integer limit (`if self.test_limit and ...`,
`if self.max_pages and ...`). -/
def pyTruthyN : Option Nat → Bool
  | none => false
  | some n => !(n == 0)

inductive StopReason where
  | testLimit
  | maxPages
  | stale
  | buttonGone
  | fuelOut
  deriving DecidableEq

/-- The Deciding phase: the four stop conditions in source order (test limit,
max page clicks, stale rounds, load-more click availability); only the test
limit truncates the collected list. -/
def decideStop (tl mp : Option Nat) (maxStale : Nat) (clickOk : Bool)
    (urls : List String) (clicks stale : Nat) :
    Option (List String × StopReason) :=
  if pyTruthyN tl && decide (tl.getD 0 ≤ urls.length) then
    some (urls.take (tl.getD 0), .testLimit)
  else if pyTruthyN mp && decide (mp.getD 0 ≤ clicks) then
    some (urls, .maxPages)
  else if decide (maxStale ≤ stale) then
    some (urls, .stale)
  else if !clickOk then
    some (urls, .buttonGone)
  else none

structure DState where
  urls : List String
  clicks : Nat
  stale : Nat
  deriving DecidableEq

inductive RoundOut where
  | stop (urls : List String) (reason : StopReason) (st : DState)
  | next (st : DState)
  deriving DecidableEq

/-- One Scanning/Deciding/Advancing round of `collect_question_urls`.
`pageLinks k` is the link list the rendered page exposes after `k` clicks;
`clickOk k` tells whether the `k`-th load-more click succeeds (both stand for
the external browser session). -/
def discoverRound (base : String) (pageLinks : Nat → List String)
    (clickOk : Nat → Bool) (tl mp : Option Nat) (maxStale : Nat)
    (st : DState) : RoundOut :=
  let pr := processLinks base (pageLinks st.clicks) st.urls
  let stale1 := if pr.2 == 0 then st.stale + 1 else 0
  match decideStop tl mp maxStale (clickOk st.clicks) pr.1 st.clicks stale1 with
  | some (us, r) => .stop us r ⟨pr.1, st.clicks, stale1⟩
  | none => .next ⟨pr.1, st.clicks + 1, stale1⟩

/-- The new stale counter a round produces. -/
def roundStale : RoundOut → Nat
  | .stop _ _ st => st.stale
  | .next st => st.stale

structure LoopResult where
  urls : List String
  reason : StopReason
  rounds : Nat
  stale : Nat
  clicks : Nat
  deriving DecidableEq

/-- The `while True` loop of `collect_question_urls`; `fuel` bounds the
unbounded iteration. -/
def collectLoop (base : String) (pageLinks : Nat → List String)
    (clickOk : Nat → Bool) (tl mp : Option Nat) (maxStale : Nat)
    (fuel : Nat) (st : DState) (rounds : Nat) : LoopResult :=
  match fuel with
  | 0 => ⟨st.urls, .fuelOut, rounds, st.stale, st.clicks⟩
  | f + 1 =>
    match discoverRound base pageLinks clickOk tl mp maxStale st with
    | .stop us r st1 => ⟨us, r, rounds + 1, st1.stale, st1.clicks⟩
    | .next st1 => collectLoop base pageLinks clickOk tl mp maxStale f st1 (rounds + 1)

/-- Embedding of `collect_question_urls`. -/
def collect_question_urls (base : String) (pageLinks : Nat → List String)
    (clickOk : Nat → Bool) (tl mp : Option Nat) (maxStale fuel : Nat) :
    List String :=
  (collectLoop base pageLinks clickOk tl mp maxStale fuel ⟨[], 0, 0⟩ 0).urls

/-! ### The run orchestrator -/

inductive REvent where
  | save (position : Nat) (snapshot : List ThreadRecord) (checkpoint : Bool)
  | quit
  deriving DecidableEq

structure RunResult where
  threads : List ThreadRecord
  events : List REvent
  deriving DecidableEq

def getErr : ThreadRecord → Option String
  | .success _ => none
  | .failure _ e _ => some e

def getDatePosted : ThreadRecord → Option String
  | .success t => some t.date_posted
  | .failure _ _ _ => none

/-- Truthiness of `thread.get("error")`. -/
def errTruthy (t : ThreadRecord) : Bool :=
  match getErr t with
  | some e => !(e = "")
  | none => false

/-- Embedding of `_is_after_since` (fail-open on an unparseable or missing
post date). -/
def is_after_since (sinceDt : Option PDate) (t : ThreadRecord) : Bool :=
  match sinceDt with
  | none => true
  | some since =>
    match parse_date (getDatePosted t) with
    | none => true
    | some posted => pdateLe since posted

/-- The retention decision of the run loop: error-truthy records are appended
unconditionally, others go through the since filter. -/
def keepDecision (sinceDt : Option PDate) (t : ThreadRecord) : Bool :=
  if errTruthy t then true else is_after_since sinceDt t

/-- The `for index, url in enumerate(urls, 1)` loop of `run`, followed by the
final save and the driver quit. -/
def runLoopAux (cfg : SiteConfig) (fetch : String → Except String Node)
    (now : String) (sinceDt : Option PDate) (ce : Nat) :
    List String → Nat → List ThreadRecord → List REvent → RunResult
  | [], idx, threads, events =>
    ⟨threads, events ++ [.save (idx - 1) threads false, .quit]⟩
  | url :: rest, idx, threads, events =>
    let t := extract_thread cfg url (fetch url) now
    let threads1 := if keepDecision sinceDt t then threads ++ [t] else threads
    let events1 := if idx % ce == 0 then events ++ [.save idx threads1 true] else events
    runLoopAux cfg fetch now sinceDt ce rest (idx + 1) threads1 events1

/-- Embedding of `run` over the discovered URL list: empty discovery returns
early (no save, no quit); otherwise every URL is extracted and filtered, the
output is saved on every `ce`-th index and once more after the loop, and the
driver is quit last. -/
def run_dump (cfg : SiteConfig) (fetch : String → Except String Node)
    (now : String) (sinceDt : Option PDate) (ce : Nat)
    (urls : List String) : RunResult :=
  if urls = [] then ⟨[], []⟩
  else runLoopAux cfg fetch now sinceDt ce urls 1 [] []

/-! ### Derived observations and spec-side definitions -/

/-- The records `run` keeps for a URL list, in order. -/
def keptOf (cfg : SiteConfig) (fetch : String → Except String Node) (now : String)
    (sinceDt : Option PDate) (urls : List String) : List ThreadRecord :=
  (urls.map fun u => extract_thread cfg u (fetch u) now).filter (keepDecision sinceDt)

/-- The save events of a run, as (position, snapshot) pairs. -/
def saveEntries : List REvent → List (Nat × List ThreadRecord)
  | [] => []
  | .save k snap _ :: rest => (k, snap) :: saveEntries rest
  | .quit :: rest => saveEntries rest

def isQuit : REvent → Bool
  | .quit => true
  | _ => false

def countQuit (evs : List REvent) : Nat := (evs.filter isQuit).length

/-- `[s, s+1, ..., s+n-1]`. -/
def posRange (s : Nat) : Nat → List Nat
  | 0 => []
  | n + 1 => s :: posRange (s + 1) n

/-- Spec-side fallthrough semantics of a selector chain: the first selector
yielding non-empty text wins, later selectors are reached exactly when every
earlier one yielded empty text (absent element or empty rendering); the empty
string when none yields text. -/
def firstNonEmptyText (doc : Node) : List String → String
  | [] => ""
  | s :: rest =>
    match doc.selOne s with
    | some el => if el.text = "" then firstNonEmptyText doc rest else el.text
    | none => firstNonEmptyText doc rest

/-- Spec-side semantics the description extractor actually has: the first
selector whose element is present wins even when its text is empty. -/
def firstPresentTextNl (doc : Node) : List String → String
  | [] => ""
  | s :: rest =>
    match doc.selOne s with
    | some el => el.textNl
    | none => firstPresentTextNl doc rest

/-- No question mark occurs in the string. -/
def noQM (s : String) : Bool := s.data.all fun c => !(c == '?')

/-- The canonical form every discovered URL has: trailing numeric id, query
string stripped, and either an absolute link or one resolved against the
thread base. -/
def ValidUrl (base u : String) : Prop :=
  hasNumericIdSuffix u = true ∧
  (noQM base = true → noQM u = true) ∧
  (lcStartsWith u.data "http".data = true ∨ ∃ t, u.data = base.data ++ '/' :: t)

/-! ### Concrete fixtures used by the closed theorems -/

def selNone : SiteSelectors :=
  ⟨none, none, none, none, none, none, none, none, none, none⟩

def cfgPlain : SiteConfig := ⟨selNone, [], []⟩

def emptyNode : Node := .mk "" "" "" none []

def textNode (t : String) : Node := .mk t t "" none []

/-- A reply item with the given body text, flagged accepted through the
default best-answer marker. -/
def acceptedItem (body : String) : Node :=
  .mk "" "" "" none
    [(".threaded-reply-body-wrapper", [textNode body]), (".best-answer", [emptyNode])]

/-- A thread page whose reply list holds two accepted replies. -/
def docTwoAccepted : Node :=
  .mk "" "" "" none
    [(".threaded-reply-item", [acceptedItem "first answer", acceptedItem "second answer"])]

def replyFirstAcc : Reply := ⟨"", "", "first answer", true, 0⟩

def replySecondAcc : Reply := ⟨"", "", "second answer", true, 0⟩

/-- A document whose first selector matches an element with empty text and
whose second selector yields text. -/
def docEmptyThenText : Node :=
  .mk "" "" "" none [("sA", [emptyNode]), ("sB", [textNode "hello"])]

/-- A document with a kudo stat but no like stat. -/
def docKudoOnly : Node :=
  .mk "" "" "" none [("[aria-label*=\"kudo\"]", [Node.mk "" "" "7 kudos" none []])]

/-- A fetch stub whose every navigation raises. -/
def fetchErr : String → Except String Node := fun _ => .error "boom"

def urlsFive : List String := ["a", "b", "c", "d", "e"]

/-! ### Helper lemmas -/

theorem find?_app {α : Type} (p : α → Bool) :
    ∀ l1 l2 : List α, (l1 ++ l2).find? p =
      (match l1.find? p with
       | some x => some x
       | none => l2.find? p) := by
  intro l1 l2
  induction l1 with
  | nil => simp
  | cons a l ih =>
    by_cases h : p a = true
    · simp [List.find?_cons_of_pos _ h, h]
    · have h2 : p a = false := by
        cases hb : p a
        · rfl
        · exact absurd hb h
      simp [List.find?_cons_of_neg, h2, ih]

theorem foldl_accept (p : Reply → Bool) :
    ∀ (rs : List Reply) (a : Option Reply),
      rs.foldl (fun acc r => if p r then some r else acc) a
        = (match rs.reverse.find? p with
           | some r => some r
           | none => a) := by
  intro rs
  induction rs with
  | nil => intro a; simp
  | cons r rs ih =>
    intro a
    simp only [List.foldl_cons, List.reverse_cons]
    rw [ih, find?_app]
    cases h : rs.reverse.find? p
    · by_cases hr : p r = true <;> simp [List.find?, hr]
    · simp

theorem acceptedFold_split :
    ∀ (rs : List Reply) (a : Option Reply) (c : List Reply),
      rs.foldl (fun p r => ((if r.is_accepted then some r else p.1), p.2 ++ [r])) (a, c)
        = (rs.foldl (fun acc r => if r.is_accepted then some r else acc) a, c ++ rs) := by
  intro rs
  induction rs with
  | nil => intro a c; simp
  | cons r rs ih => intro a c; simp [List.foldl_cons, ih]

theorem acceptedFold_spec (rs : List Reply) :
    acceptedFold rs = (rs.reverse.find? (fun r => r.is_accepted), rs) := by
  rw [acceptedFold, acceptedFold_split, foldl_accept]
  cases h : rs.reverse.find? (fun r => r.is_accepted) <;> simp [h]

theorem selectTextGo_spec (doc : Node) :
    ∀ sels : List String, (∀ s ∈ sels, s ≠ "") →
      selectTextGo doc sels = firstNonEmptyText doc sels := by
  intro sels
  induction sels with
  | nil => intro _; rfl
  | cons s rest ih =>
    intro h
    have hs : s ≠ "" := h s (by simp)
    have hr : ∀ x ∈ rest, x ≠ "" := fun x hx => h x (by simp [hx])
    simp only [selectTextGo, firstNonEmptyText, if_neg hs]
    cases hsel : doc.selOne s
    · exact ih hr
    · simp only []
      split
      · exact ih hr
      · rfl

theorem extractDescGo_spec (doc : Node) :
    ∀ sels : List String, extractDescGo doc sels = firstPresentTextNl doc sels := by
  intro sels
  induction sels with
  | nil => rfl
  | cons s rest ih =>
    simp only [extractDescGo, firstPresentTextNl]
    cases doc.selOne s <;> simp [ih]

theorem keptOf_nil (cfg : SiteConfig) (fetch : String → Except String Node)
    (now : String) (sinceDt : Option PDate) :
    keptOf cfg fetch now sinceDt [] = [] := rfl

theorem keptOf_cons (cfg : SiteConfig) (fetch : String → Except String Node)
    (now : String) (sinceDt : Option PDate) (u : String) (rest : List String) :
    keptOf cfg fetch now sinceDt (u :: rest)
      = (if keepDecision sinceDt (extract_thread cfg u (fetch u) now)
          then [extract_thread cfg u (fetch u) now] else [])
        ++ keptOf cfg fetch now sinceDt rest := by
  simp only [keptOf, List.map_cons, List.filter_cons]
  by_cases h : keepDecision sinceDt (extract_thread cfg u (fetch u) now) = true <;> simp [h]

theorem keptOf_append (cfg : SiteConfig) (fetch : String → Except String Node)
    (now : String) (sinceDt : Option PDate) (l1 l2 : List String) :
    keptOf cfg fetch now sinceDt (l1 ++ l2)
      = keptOf cfg fetch now sinceDt l1 ++ keptOf cfg fetch now sinceDt l2 := by
  simp [keptOf, List.filter_append]

theorem keep_failure (sinceDt : Option PDate) (u e ts : String) :
    keepDecision sinceDt (ThreadRecord.failure u e ts) = true := by
  by_cases h : e = ""
  · cases sinceDt <;> simp [keepDecision, errTruthy, getErr, is_after_since, getDatePosted,
      parse_date, h]
  · simp [keepDecision, errTruthy, getErr, h]

theorem runLoopAux_threads (cfg : SiteConfig) (fetch : String → Except String Node)
    (now : String) (sinceDt : Option PDate) (ce : Nat) :
    ∀ (rest : List String) (idx : Nat) (threads : List ThreadRecord) (events : List REvent),
      (runLoopAux cfg fetch now sinceDt ce rest idx threads events).threads
        = threads ++ keptOf cfg fetch now sinceDt rest := by
  intro rest
  induction rest with
  | nil => intro idx threads events; simp [runLoopAux, keptOf]
  | cons u rest ih =>
    intro idx threads events
    simp only [runLoopAux]
    rw [ih, keptOf_cons]
    by_cases h : keepDecision sinceDt (extract_thread cfg u (fetch u) now) = true <;>
      simp [h, List.append_assoc]

theorem saveEntries_append :
    ∀ a b : List REvent, saveEntries (a ++ b) = saveEntries a ++ saveEntries b := by
  intro a b
  induction a with
  | nil => rfl
  | cons e rest ih => cases e <;> simp [saveEntries, ih]

theorem mem_posRange : ∀ (n s k : Nat), k ∈ posRange s n ↔ s ≤ k ∧ k < s + n := by
  intro n
  induction n with
  | zero => intro s k; simp [posRange]
  | succ n ih => intro s k; simp [posRange, ih]; omega

theorem map_congr_mem {α β : Type} (f g : α → β) :
    ∀ l : List α, (∀ a ∈ l, f a = g a) → l.map f = l.map g := by
  intro l
  induction l with
  | nil => intro _; rfl
  | cons a l ih =>
    intro h
    simp only [List.map_cons]
    rw [h a (by simp), ih (fun x hx => h x (by simp [hx]))]

theorem runLoopAux_saves (cfg : SiteConfig) (fetch : String → Except String Node)
    (now : String) (sinceDt : Option PDate) (ce : Nat) :
    ∀ (rest : List String) (idx : Nat) (threads : List ThreadRecord) (events : List REvent),
      saveEntries (runLoopAux cfg fetch now sinceDt ce rest idx threads events).events
        = saveEntries events
          ++ ((posRange idx rest.length).filter (fun k => k % ce == 0)).map
               (fun k => (k, threads ++ keptOf cfg fetch now sinceDt (rest.take (k + 1 - idx))))
          ++ [(idx + rest.length - 1, threads ++ keptOf cfg fetch now sinceDt rest)] := by
  intro rest
  induction rest with
  | nil =>
    intro idx threads events
    simp [runLoopAux, posRange, saveEntries_append, saveEntries, keptOf]
  | cons u rest ih =>
    intro idx threads events
    have hcons : ∀ l : List String,
        keptOf cfg fetch now sinceDt (u :: l)
          = keptOf cfg fetch now sinceDt [u] ++ keptOf cfg fetch now sinceDt l := by
      intro l
      rw [keptOf_cons, keptOf_cons, keptOf_nil, List.append_nil]
    have hT : (if keepDecision sinceDt (extract_thread cfg u (fetch u) now)
          then threads ++ [extract_thread cfg u (fetch u) now] else threads)
        = threads ++ keptOf cfg fetch now sinceDt [u] := by
      rw [keptOf_cons, keptOf_nil, List.append_nil]
      by_cases h : keepDecision sinceDt (extract_thread cfg u (fetch u) now) = true <;> simp [h]
    simp only [runLoopAux]
    rw [ih, hT]
    have hpoint : ((posRange (idx + 1) rest.length).filter (fun k => k % ce == 0)).map
          (fun k => (k, threads ++ keptOf cfg fetch now sinceDt ((u :: rest).take (k + 1 - idx))))
        = ((posRange (idx + 1) rest.length).filter (fun k => k % ce == 0)).map
          (fun k => (k, threads ++ keptOf cfg fetch now sinceDt [u]
              ++ keptOf cfg fetch now sinceDt (rest.take (k + 1 - (idx + 1))))) := by
      apply map_congr_mem
      intro k hk
      have hk2 : idx + 1 ≤ k := ((mem_posRange _ _ _).1 (List.mem_of_mem_filter hk)).1
      have htake : k + 1 - idx = (k + 1 - (idx + 1)) + 1 := by omega
      rw [htake, List.take_succ_cons, hcons, ← List.append_assoc]
    have hlen : (u :: rest).length = rest.length + 1 := rfl
    rw [hlen]
    have hrange : posRange idx (rest.length + 1) = idx :: posRange (idx + 1) rest.length := rfl
    rw [hrange, List.filter_cons]
    have hidx : (idx + 1) + rest.length - 1 = idx + (rest.length + 1) - 1 := by omega
    have hfin : threads ++ keptOf cfg fetch now sinceDt (u :: rest)
        = (threads ++ keptOf cfg fetch now sinceDt [u]) ++ keptOf cfg fetch now sinceDt rest := by
      rw [hcons, ← List.append_assoc]
    by_cases hc : (idx % ce == 0) = true
    · simp only [if_pos hc, saveEntries_append, List.map_cons]
      have htake1 : idx + 1 - idx = 1 := by omega
      rw [htake1]
      simp only [List.take_succ_cons, List.take_zero]
      rw [hpoint, hidx, hfin]
      simp [saveEntries, List.append_assoc]
    · simp only [if_neg hc]
      rw [hpoint, hidx, hfin]

theorem countQuit_saveFree (evs : List REvent) (k : Nat) (snap : List ThreadRecord) (b : Bool) :
    countQuit (evs ++ [REvent.save k snap b]) = countQuit evs := by
  simp [countQuit, List.filter_append, isQuit]

theorem runLoopAux_quit (cfg : SiteConfig) (fetch : String → Except String Node)
    (now : String) (sinceDt : Option PDate) (ce : Nat) :
    ∀ (rest : List String) (idx : Nat) (threads : List ThreadRecord) (events : List REvent),
      ∃ pre, (runLoopAux cfg fetch now sinceDt ce rest idx threads events).events
          = pre ++ [REvent.quit] ∧ countQuit pre = countQuit events := by
  intro rest
  induction rest with
  | nil =>
    intro idx threads events
    refine ⟨events ++ [.save (idx - 1) threads false], ?_, ?_⟩
    · simp [runLoopAux]
    · exact countQuit_saveFree events (idx - 1) threads false
  | cons u rest ih =>
    intro idx threads events
    have hkey : ∀ (T : List ThreadRecord) (E : List REvent), countQuit E = countQuit events →
        ∃ pre, (runLoopAux cfg fetch now sinceDt ce rest (idx + 1) T E).events
            = pre ++ [REvent.quit] ∧ countQuit pre = countQuit events := by
      intro T E hE
      obtain ⟨pre, h1, h2⟩ := ih (idx + 1) T E
      exact ⟨pre, h1, by rw [h2, hE]⟩
    simp only [runLoopAux]
    apply hkey
    by_cases hc : (idx % ce == 0) = true
    · simp only [if_pos hc]
      exact countQuit_saveFree events idx _ true
    · simp only [if_neg hc]

/-! ### Claim theorems -/

/-- C1, counterexample: on a thread page with two accepted replies,
`extract_thread` leaves the second (last) one in `accepted_answer`, not the
first accepted reply in document order that the claim demands. -/
theorem C1_counterexample :
    (successFields cfgPlain "u" docTwoAccepted "t").accepted_answer = some replySecondAcc ∧
    (extract_replies cfgPlain docTwoAccepted).find? (fun r => r.is_accepted)
      = some replyFirstAcc ∧
    replyFirstAcc ≠ replySecondAcc := by decide

/-- C1 (amended): for every extracted thread page, `accepted_answer` is the
last reply in document order whose accepted flag is true (each accepted reply
overwrites the previous one), and null when no reply has the flag; the
comments list is exactly the extracted reply list. -/
theorem C1_accepted_answer_last (cfg : SiteConfig) (url : String) (doc : Node) (now : String) :
    (successFields cfg url doc now).accepted_answer
        = (extract_replies cfg doc).reverse.find? (fun r => r.is_accepted) ∧
    (successFields cfg url doc now).comments = extract_replies cfg doc := by
  constructor
  · show (acceptedFold (extract_replies cfg doc)).1 = _
    rw [acceptedFold_spec]
  · show (acceptedFold (extract_replies cfg doc)).2 = _
    rw [acceptedFold_spec]

/-- C2, counterexample: the description chain stops at the first selector
whose element is present even when its text is empty, so it does not return
the first selector yielding non-empty text. -/
theorem C2_counterexample :
    extract_description (some (SelSpec.many ["sA", "sB"])) docEmptyThenText = "" ∧
    firstNonEmptyText docEmptyThenText ["sA", "sB"] = "hello" ∧
    extract_description (some (SelSpec.many ["sA", "sB"])) docEmptyThenText
      ≠ firstNonEmptyText docEmptyThenText ["sA", "sB"] := by decide

/-- C2 (amended): for chains routed through `_select_text` (with non-empty
selector strings) extraction returns the text of the first selector yielding
non-empty text, falling through on empty text as well as on an absent
element, and returns "" when none yields text; the description extractor
instead returns the newline-joined text of the first selector whose element
is present, even when that text is empty, and "" only when no selector
matches an element. -/
theorem C2_selector_fallthrough :
    (∀ (doc : Node) (cfg : Option SelSpec), (∀ s ∈ selSpecList cfg, s ≠ "") →
        select_text doc cfg = firstNonEmptyText doc (selSpecList cfg)) ∧
    (∀ (doc : Node) (cfg : Option SelSpec),
        extract_description cfg doc = firstPresentTextNl doc (descList cfg)) := by
  constructor
  · intro doc cfg h
    exact selectTextGo_spec doc _ h
  · intro doc cfg
    exact extractDescGo_spec doc (descList cfg)

theorem C2_witness :
    select_text docEmptyThenText (some (SelSpec.one "sB"))
      = firstNonEmptyText docEmptyThenText ["sB"] :=
  C2_selector_fallthrough.1 docEmptyThenText (some (SelSpec.one "sB")) (by decide)

/-- C5: for a non-empty discovered URL list the output is written after the
k-th processed URL exactly when k is a multiple of `checkpoint_every`
(counting from 1), plus one final unconditional write after the loop, and
every write holds the full accumulated thread list so far. -/
theorem C5_checkpoint_cadence (cfg : SiteConfig) (fetch : String → Except String Node)
    (now : String) (sinceDt : Option PDate) (ce : Nat) (urls : List String)
    (hne : urls ≠ []) (_hce : 0 < ce) :
    saveEntries (run_dump cfg fetch now sinceDt ce urls).events
      = ((posRange 1 urls.length).filter (fun k => k % ce == 0)).map
          (fun k => (k, keptOf cfg fetch now sinceDt (urls.take k)))
        ++ [(urls.length, keptOf cfg fetch now sinceDt urls)] := by
  rw [run_dump, if_neg hne, runLoopAux_saves]
  simp [saveEntries, Nat.add_sub_cancel]

theorem C5_witness :
    saveEntries ((run_dump cfgPlain fetchErr "ts" none 2 urlsFive).events)
      = ((posRange 1 urlsFive.length).filter (fun k => k % 2 == 0)).map
          (fun k => (k, keptOf cfgPlain fetchErr "ts" none (urlsFive.take k)))
        ++ [(urlsFive.length, keptOf cfgPlain fetchErr "ts" none urlsFive)] ∧
    (saveEntries ((run_dump cfgPlain fetchErr "ts" none 2 urlsFive).events)).map Prod.fst
      = [2, 4, 5] :=
  ⟨C5_checkpoint_cadence cfgPlain fetchErr "ts" none 2 urlsFive (by decide) (by decide),
   by decide⟩

/-- C6: error-variant records are always kept, and a success-variant record
is kept iff no since-date is configured, or its post date does not re-parse
(fail-open), or the parsed date is on/after the since-date; the accumulated
output of a run is exactly the per-record filter applied in order. -/
theorem C6_since_filter (cfg : SiteConfig) (fetch : String → Except String Node)
    (now : String) (sinceDt : Option PDate) (ce : Nat) (urls : List String) :
    (run_dump cfg fetch now sinceDt ce urls).threads = keptOf cfg fetch now sinceDt urls ∧
    (∀ u e ts, keepDecision sinceDt (ThreadRecord.failure u e ts) = true) ∧
    (∀ tf : ThreadFields,
       keepDecision sinceDt (ThreadRecord.success tf) = true ↔
         (sinceDt = none ∨ parse_date (some tf.date_posted) = none ∨
          ∃ s p, sinceDt = some s ∧ parse_date (some tf.date_posted) = some p ∧
            pdateLe s p = true)) := by
  refine ⟨?_, fun u e ts => keep_failure sinceDt u e ts, ?_⟩
  · by_cases hne : urls = []
    · subst hne; rfl
    · rw [run_dump, if_neg hne, runLoopAux_threads, List.nil_append]
  · intro tf
    show (if errTruthy (ThreadRecord.success tf) then true
        else is_after_since sinceDt (ThreadRecord.success tf)) = true ↔ _
    simp only [errTruthy, getErr, if_neg Bool.false_ne_true, is_after_since, getDatePosted]
    cases hs : sinceDt with
    | none => simp
    | some s =>
      cases hp : parse_date (some tf.date_posted) with
      | none => simp
      | some p =>
        constructor
        · intro h
          exact Or.inr (Or.inr ⟨s, p, rfl, rfl, h⟩)
        · intro h
          rcases h with h | h | ⟨s2, p2, hs2, hp2, hle⟩
          · exact absurd h (by simp)
          · exact absurd h (by simp)
          · cases hs2
            cases hp2
            exact hle

/-- C7: a URL whose fetch raises yields the degenerate record with exactly
url, error and scraped_at; the exception does not end the run, and the URLs
after it are still extracted and accumulated. -/
theorem C7_error_isolation (cfg : SiteConfig) (fetch : String → Except String Node)
    (now : String) (sinceDt : Option PDate) (ce : Nat)
    (urls1 urls2 : List String) (url e : String)
    (hf : fetch url = .error e) :
    extract_thread cfg url (fetch url) now = .failure url e now ∧
    (run_dump cfg fetch now sinceDt ce (urls1 ++ url :: urls2)).threads
      = keptOf cfg fetch now sinceDt urls1
        ++ ThreadRecord.failure url e now :: keptOf cfg fetch now sinceDt urls2 := by
  have hx : extract_thread cfg url (fetch url) now = .failure url e now := by
    rw [hf]
    rfl
  refine ⟨hx, ?_⟩
  have hne : urls1 ++ url :: urls2 ≠ [] := by simp
  rw [run_dump, if_neg hne, runLoopAux_threads, List.nil_append, keptOf_append, keptOf_cons,
    hx, keep_failure]
  simp

theorem C7_witness :
    fetchErr "bad" = Except.error "boom" ∧
    (run_dump cfgPlain fetchErr "ts" none 50 ["a", "bad", "b"]).threads
      = keptOf cfgPlain fetchErr "ts" none ["a"]
        ++ ThreadRecord.failure "bad" "boom" "ts" :: keptOf cfgPlain fetchErr "ts" none ["b"] :=
  ⟨rfl, (C7_error_isolation cfgPlain fetchErr "ts" none 50 ["a"] ["b"] "bad" "boom" rfl).2⟩

/-- C9, counterexample: a run whose URL discovery is empty returns normally
without quitting the browser session even once. -/
theorem C9_counterexample :
    countQuit ((run_dump cfgPlain fetchErr "ts" none 50 []).events) ≠ 1 := by decide

/-- C9 (amended): for a successful run over a non-empty discovered URL list
the browser session is quit exactly once, as the last event; a run whose URL
discovery returns the empty list returns early with no events at all, so the
session is not released there. -/
theorem C9_quit_once (cfg : SiteConfig) (fetch : String → Except String Node)
    (now : String) (sinceDt : Option PDate) (ce : Nat) (urls : List String) :
    (urls ≠ [] →
       ∃ pre, (run_dump cfg fetch now sinceDt ce urls).events = pre ++ [REvent.quit]
         ∧ countQuit pre = 0) ∧
    (urls = [] → (run_dump cfg fetch now sinceDt ce urls).events = []) := by
  constructor
  · intro hne
    rw [run_dump, if_neg hne]
    obtain ⟨pre, h1, h2⟩ := runLoopAux_quit cfg fetch now sinceDt ce urls 1 [] []
    exact ⟨pre, h1, by rw [h2]; rfl⟩
  · intro he
    rw [run_dump, if_pos he]

theorem C9_witness :
    countQuit ((run_dump cfgPlain fetchErr "ts" none 50 ["u"]).events) = 1 := by
  obtain ⟨pre, h1, h2⟩ :=
    (C9_quit_once cfgPlain fetchErr "ts" none 50 ["u"]).1 (by decide)
  rw [h1]
  show (List.filter isQuit (pre ++ [REvent.quit])).length = 1
  rw [List.filter_append, List.length_append]
  have h3 : (List.filter isQuit pre).length = 0 := h2
  rw [h3]
  rfl

/-- C10: the thread-level likes field is the "like" numeric stat when that is
non-zero, and otherwise falls back to the "kudo" numeric stat. -/
theorem C10_thread_likes (cfg : SiteConfig) (url : String) (doc : Node) (now : String) :
    (extract_stat doc "like" ≠ 0 →
        (successFields cfg url doc now).likes = extract_stat doc "like") ∧
    (extract_stat doc "like" = 0 →
        (successFields cfg url doc now).likes = extract_stat doc "kudo") := by
  constructor <;> intro h <;> simp [successFields, pyOrNat, h]

theorem C10_witness :
    extract_stat docKudoOnly "like" = 0 ∧
    (successFields cfgPlain "u" docKudoOnly "t").likes = extract_stat docKudoOnly "kudo" :=
  ⟨by decide, (C10_thread_likes cfgPlain "u" docKudoOnly "t").2 (by decide)⟩

theorem processLinks_shape (base : String) :
    ∀ (links urls : List String),
      ∃ t, (processLinks base links urls).1 = urls ++ t ∧
        t.length = (processLinks base links urls).2 := by
  intro links
  induction links with
  | nil => intro urls; exact ⟨[], by simp [processLinks], by simp [processLinks]⟩
  | cons href rest ih =>
    intro urls
    simp only [processLinks]
    by_cases h1 : hasNumericIdSuffix (canonicalize base href) = true
    · simp only [if_pos h1]
      by_cases h2 : canonicalize base href ∈ urls
      · simp only [if_pos h2]
        exact ih urls
      · simp only [if_neg h2]
        obtain ⟨t, ht1, ht2⟩ := ih (urls ++ [canonicalize base href])
        refine ⟨canonicalize base href :: t, ?_, ?_⟩
        · rw [ht1, List.append_assoc]
          rfl
        · simp [ht2]
    · simp only [if_neg h1]
      exact ih urls

theorem processLinks_sub (base : String) (links urls : List String) (u : String)
    (hu : u ∈ urls) : u ∈ (processLinks base links urls).1 := by
  obtain ⟨t, ht, _⟩ := processLinks_shape base links urls
  rw [ht]
  exact List.mem_append_left _ hu

theorem processLinks_mem (base : String) :
    ∀ (links urls : List String) (u : String), u ∈ (processLinks base links urls).1 →
      u ∈ urls ∨ (hasNumericIdSuffix u = true ∧ ∃ href ∈ links, u = canonicalize base href) := by
  intro links
  induction links with
  | nil =>
    intro urls u hu
    exact Or.inl (by simpa [processLinks] using hu)
  | cons href rest ih =>
    intro urls u hu
    simp only [processLinks] at hu
    by_cases h1 : hasNumericIdSuffix (canonicalize base href) = true
    · rw [if_pos h1] at hu
      by_cases h2 : canonicalize base href ∈ urls
      · rw [if_pos h2] at hu
        rcases ih urls u hu with h | ⟨ha, href2, hm, he⟩
        · exact Or.inl h
        · exact Or.inr ⟨ha, href2, List.mem_cons_of_mem _ hm, he⟩
      · rw [if_neg h2] at hu
        rcases ih _ u hu with h | ⟨ha, href2, hm, he⟩
        · rcases List.mem_append.1 h with h | h
          · exact Or.inl h
          · have he : u = canonicalize base href := by simpa using h
            exact Or.inr ⟨he ▸ h1, href, List.mem_cons_self _ _, he⟩
        · exact Or.inr ⟨ha, href2, List.mem_cons_of_mem _ hm, he⟩
    · rw [if_neg h1] at hu
      rcases ih urls u hu with h | ⟨ha, href2, hm, he⟩
      · exact Or.inl h
      · exact Or.inr ⟨ha, href2, List.mem_cons_of_mem _ hm, he⟩

theorem processLinks_nodup (base : String) :
    ∀ (links urls : List String), urls.Nodup → (processLinks base links urls).1.Nodup := by
  intro links
  induction links with
  | nil => intro urls h; simpa [processLinks] using h
  | cons href rest ih =>
    intro urls h
    simp only [processLinks]
    by_cases h1 : hasNumericIdSuffix (canonicalize base href) = true
    · simp only [if_pos h1]
      by_cases h2 : canonicalize base href ∈ urls
      · simp only [if_pos h2]
        exact ih urls h
      · simp only [if_neg h2]
        apply ih
        simp [List.nodup_append, h, h2]
    · simp only [if_neg h1]
      exact ih urls h

theorem processLinks_covers (base : String) :
    ∀ (links urls : List String) (href : String), href ∈ links →
      hasNumericIdSuffix (canonicalize base href) = true →
      canonicalize base href ∈ (processLinks base links urls).1 := by
  intro links
  induction links with
  | nil => intro urls href hm; exact absurd hm (List.not_mem_nil _)
  | cons href0 rest ih =>
    intro urls href hm hok
    simp only [processLinks]
    rcases List.mem_cons.1 hm with he | hm2
    · subst he
      simp only [if_pos hok]
      by_cases h2 : canonicalize base href ∈ urls
      · simp only [if_pos h2]
        exact processLinks_sub base rest urls _ h2
      · simp only [if_neg h2]
        exact processLinks_sub base rest _ _ (List.mem_append_right _ (by simp))
    · by_cases h1 : hasNumericIdSuffix (canonicalize base href0) = true
      · simp only [if_pos h1]
        by_cases h2 : canonicalize base href0 ∈ urls
        · simp only [if_pos h2]
          exact ih urls href hm2 hok
        · simp only [if_neg h2]
          exact ih _ href hm2 hok
      · simp only [if_neg h1]
        exact ih urls href hm2 hok

theorem processLinks_stale (base : String) :
    ∀ (links urls : List String),
      (∀ href ∈ links, hasNumericIdSuffix (canonicalize base href) = true →
        canonicalize base href ∈ urls) →
      processLinks base links urls = (urls, 0) := by
  intro links
  induction links with
  | nil => intro urls _; rfl
  | cons href rest ih =>
    intro urls h
    simp only [processLinks]
    by_cases h1 : hasNumericIdSuffix (canonicalize base href) = true
    · simp only [if_pos h1]
      rw [if_pos (h href (by simp) h1)]
      exact ih urls (fun x hx hv => h x (by simp [hx]) hv)
    · simp only [if_neg h1]
      exact ih urls (fun x hx hv => h x (by simp [hx]) hv)

theorem processLinks_idem (base : String) (links urls : List String) :
    processLinks base links (processLinks base links urls).1
      = ((processLinks base links urls).1, 0) := by
  apply processLinks_stale
  intro href hm hok
  exact processLinks_covers base links urls href hm hok

/-- C4: the Deciding step evaluates its stop conditions in the fixed source
order (test limit, then max pages, then stale rounds, then load-more click
availability), and only the test-limit stop truncates the collected URL list
(to exactly the limit); every other stop returns the list unchanged. -/
theorem C4_stop_priority (tl mp : Option Nat) (maxStale : Nat) (clickOk : Bool)
    (urls : List String) (clicks stale : Nat) :
    (pyTruthyN tl = true → tl.getD 0 ≤ urls.length →
       decideStop tl mp maxStale clickOk urls clicks stale
           = some (urls.take (tl.getD 0), .testLimit) ∧
         (urls.take (tl.getD 0)).length = tl.getD 0) ∧
    (¬(pyTruthyN tl = true ∧ tl.getD 0 ≤ urls.length) →
       pyTruthyN mp = true → mp.getD 0 ≤ clicks →
       decideStop tl mp maxStale clickOk urls clicks stale = some (urls, .maxPages)) ∧
    (¬(pyTruthyN tl = true ∧ tl.getD 0 ≤ urls.length) →
       ¬(pyTruthyN mp = true ∧ mp.getD 0 ≤ clicks) →
       maxStale ≤ stale →
       decideStop tl mp maxStale clickOk urls clicks stale = some (urls, .stale)) ∧
    (¬(pyTruthyN tl = true ∧ tl.getD 0 ≤ urls.length) →
       ¬(pyTruthyN mp = true ∧ mp.getD 0 ≤ clicks) →
       ¬(maxStale ≤ stale) →
       clickOk = false →
       decideStop tl mp maxStale clickOk urls clicks stale = some (urls, .buttonGone)) ∧
    (¬(pyTruthyN tl = true ∧ tl.getD 0 ≤ urls.length) →
       ¬(pyTruthyN mp = true ∧ mp.getD 0 ≤ clicks) →
       ¬(maxStale ≤ stale) →
       clickOk = true →
       decideStop tl mp maxStale clickOk urls clicks stale = none) ∧
    (∀ us r, decideStop tl mp maxStale clickOk urls clicks stale = some (us, r) →
       r ≠ .testLimit → us = urls) := by
  refine ⟨?_, ?_, ?_, ?_, ?_, ?_⟩
  · intro h1 h2
    constructor
    · unfold decideStop
      simp [h1, h2]
    · rw [List.length_take]
      omega
  · intro hn1 h1 h2
    unfold decideStop
    have hb : (pyTruthyN tl && decide (tl.getD 0 ≤ urls.length)) = false := by
      cases htl : pyTruthyN tl
      · rfl
      · simp only [Bool.true_and]
        by_cases h : tl.getD 0 ≤ urls.length
        · exact absurd ⟨htl, h⟩ hn1
        · simp [h]
    simp [hb, h1, h2]
  · intro hn1 hn2 h1
    unfold decideStop
    have hb : (pyTruthyN tl && decide (tl.getD 0 ≤ urls.length)) = false := by
      cases htl : pyTruthyN tl
      · rfl
      · simp only [Bool.true_and]
        by_cases h : tl.getD 0 ≤ urls.length
        · exact absurd ⟨htl, h⟩ hn1
        · simp [h]
    have hb2 : (pyTruthyN mp && decide (mp.getD 0 ≤ clicks)) = false := by
      cases hmp : pyTruthyN mp
      · rfl
      · simp only [Bool.true_and]
        by_cases h : mp.getD 0 ≤ clicks
        · exact absurd ⟨hmp, h⟩ hn2
        · simp [h]
    simp [hb, hb2, h1]
  · intro hn1 hn2 hn3 h1
    unfold decideStop
    have hb : (pyTruthyN tl && decide (tl.getD 0 ≤ urls.length)) = false := by
      cases htl : pyTruthyN tl
      · rfl
      · simp only [Bool.true_and]
        by_cases h : tl.getD 0 ≤ urls.length
        · exact absurd ⟨htl, h⟩ hn1
        · simp [h]
    have hb2 : (pyTruthyN mp && decide (mp.getD 0 ≤ clicks)) = false := by
      cases hmp : pyTruthyN mp
      · rfl
      · simp only [Bool.true_and]
        by_cases h : mp.getD 0 ≤ clicks
        · exact absurd ⟨hmp, h⟩ hn2
        · simp [h]
    simp [hb, hb2, hn3, h1]
  · intro hn1 hn2 hn3 h1
    unfold decideStop
    have hb : (pyTruthyN tl && decide (tl.getD 0 ≤ urls.length)) = false := by
      cases htl : pyTruthyN tl
      · rfl
      · simp only [Bool.true_and]
        by_cases h : tl.getD 0 ≤ urls.length
        · exact absurd ⟨htl, h⟩ hn1
        · simp [h]
    have hb2 : (pyTruthyN mp && decide (mp.getD 0 ≤ clicks)) = false := by
      cases hmp : pyTruthyN mp
      · rfl
      · simp only [Bool.true_and]
        by_cases h : mp.getD 0 ≤ clicks
        · exact absurd ⟨hmp, h⟩ hn2
        · simp [h]
    simp [hb, hb2, hn3, h1]
  · intro us r h hr
    unfold decideStop at h
    split at h
    · cases h
      exact absurd rfl hr
    · split at h
      · cases h
        rfl
      · split at h
        · cases h
          rfl
        · split at h
          · cases h
            rfl
          · cases h

theorem C4_witness :
    decideStop (some 2) none 3 true ["a", "b", "c"] 0 9
        = some (["a", "b"], StopReason.testLimit) ∧
    decideStop none (some 2) 3 true ["a", "b", "c"] 5 0
        = some (["a", "b", "c"], StopReason.maxPages) :=
  ⟨((C4_stop_priority (some 2) none 3 true ["a", "b", "c"] 0 9).1 (by decide) (by decide)).1,
   (C4_stop_priority none (some 2) 3 true ["a", "b", "c"] 5 0).2.1 (by decide) (by decide)
     (by decide)⟩

/-- The urls a stopping round returns: unchanged, or truncated to the test
limit. -/
theorem decideStop_urls (tl mp : Option Nat) (maxStale : Nat) (clickOk : Bool)
    (urls : List String) (clicks stale : Nat) (us : List String) (r : StopReason)
    (h : decideStop tl mp maxStale clickOk urls clicks stale = some (us, r)) :
    us = urls ∨ us = urls.take (tl.getD 0) := by
  unfold decideStop at h
  split at h
  · cases h
    exact Or.inr rfl
  · split at h
    · cases h
      exact Or.inl rfl
    · split at h
      · cases h
        exact Or.inl rfl
      · split at h
        · cases h
          exact Or.inl rfl
        · cases h

theorem discoverRound_staleCalc (base : String) (pageLinks : Nat → List String)
    (clickOk : Nat → Bool) (tl mp : Option Nat) (maxStale : Nat) (st : DState) :
    ((processLinks base (pageLinks st.clicks) st.urls).2 = 0 →
       roundStale (discoverRound base pageLinks clickOk tl mp maxStale st) = st.stale + 1) ∧
    (0 < (processLinks base (pageLinks st.clicks) st.urls).2 →
       roundStale (discoverRound base pageLinks clickOk tl mp maxStale st) = 0) := by
  constructor
  · intro h
    simp only [discoverRound, h]
    split <;> simp [roundStale]
  · intro h
    have h2 : ((processLinks base (pageLinks st.clicks) st.urls).2 == 0) = false := by
      simp
      omega
    simp only [discoverRound, h2]
    split <;> simp [roundStale]

theorem collectLoop_stale_run (base : String) (P : List String) (maxStale : Nat) :
    ∀ (m fuel : Nat) (urls : List String) (clicks stale rounds : Nat),
      1 ≤ m → stale + m = maxStale → m ≤ fuel →
      processLinks base P urls = (urls, 0) →
      collectLoop base (fun _ => P) (fun _ => true) none none maxStale fuel
          ⟨urls, clicks, stale⟩ rounds
        = ⟨urls, .stale, rounds + m, maxStale, clicks + (m - 1)⟩ := by
  intro m
  induction m with
  | zero =>
    intro fuel urls clicks stale rounds h1
    exact absurd h1 (by omega)
  | succ m ih =>
    intro fuel urls clicks stale rounds h1 h2 h3 hp
    obtain ⟨f, rfl⟩ : ∃ f, fuel = f + 1 := ⟨fuel - 1, by omega⟩
    simp only [collectLoop, discoverRound, hp]
    rw [show (if ((0 : Nat) == 0) = true then stale + 1 else 0) = stale + 1 from rfl]
    by_cases hm : m = 0
    · subst hm
      have hd : decideStop none none maxStale true urls clicks (stale + 1)
          = some (urls, .stale) := by
        unfold decideStop pyTruthyN
        have hle : maxStale ≤ stale + 1 := by omega
        simp [hle]
      rw [hd]
      have hst : stale + 1 = maxStale := by omega
      simp [hst]
    · have hd : decideStop none none maxStale true urls clicks (stale + 1) = none := by
        unfold decideStop pyTruthyN
        have hlt : ¬ maxStale ≤ stale + 1 := by omega
        simp [hlt]
      rw [hd]
      have hrec := ih f urls (clicks + 1) (stale + 1) (rounds + 1) (by omega) (by omega)
        (by omega) hp
      show collectLoop base (fun _ => P) (fun _ => true) none none maxStale f
          ⟨urls, clicks + 1, stale + 1⟩ (rounds + 1)
        = ({ urls := urls, reason := StopReason.stale, rounds := rounds + (m + 1),
             stale := maxStale, clicks := clicks + (m + 1 - 1) } : LoopResult)
      rw [hrec]
      have e1 : rounds + 1 + m = rounds + (m + 1) := by omega
      have e2 : clicks + 1 + (m - 1) = clicks + (m + 1 - 1) := by omega
      rw [e1, e2]

theorem collectLoop_fixed_halt (base : String) (P : List String) (maxStale fuel : Nat)
    (h1 : 1 ≤ maxStale) (h2 : maxStale + 1 ≤ fuel) :
    (collectLoop base (fun _ => P) (fun _ => true) none none maxStale fuel
        ⟨[], 0, 0⟩ 0).reason = .stale ∧
    (collectLoop base (fun _ => P) (fun _ => true) none none maxStale fuel
        ⟨[], 0, 0⟩ 0).stale = maxStale ∧
    (collectLoop base (fun _ => P) (fun _ => true) none none maxStale fuel
        ⟨[], 0, 0⟩ 0).rounds
      = maxStale + (if 0 < (processLinks base P []).2 then 1 else 0) := by
  by_cases hk : (processLinks base P []).2 = 0
  · have hpr : processLinks base P [] = ([], 0) := by
      obtain ⟨t, ht, htl⟩ := processLinks_shape base P []
      have htn : t = [] := List.eq_nil_of_length_eq_zero (by rw [htl, hk])
      subst htn
      rw [Prod.ext_iff]
      exact ⟨by simpa using ht, hk⟩
    have hrun := collectLoop_stale_run base P maxStale maxStale fuel [] 0 0 0 h1
      (by omega) (by omega) hpr
    rw [hrun]
    refine ⟨rfl, rfl, ?_⟩
    rw [hk, if_neg (show ¬ (0 : Nat) < 0 by omega)]
    show 0 + maxStale = maxStale + 0
    omega
  · obtain ⟨f, rfl⟩ : ∃ f, fuel = f + 1 := ⟨fuel - 1, by omega⟩
    have hk2 : ((processLinks base P []).2 == 0) = false := by simp [hk]
    have hif : (if ((processLinks base P []).2 == 0) = true then 0 + 1 else 0) = 0 := by
      simp [hk2]
    have hd : decideStop none none maxStale true (processLinks base P []).1 0 0 = none := by
      unfold decideStop pyTruthyN
      have hns : ¬ maxStale ≤ 0 := by omega
      simp [hns]
    have hres : collectLoop base (fun _ => P) (fun _ => true) none none maxStale (f + 1)
        ⟨[], 0, 0⟩ 0
        = ⟨(processLinks base P []).1, .stale, 1 + maxStale, maxStale,
           1 + (maxStale - 1)⟩ := by
      have hrun := collectLoop_stale_run base P maxStale maxStale f
        (processLinks base P []).1 1 0 1 h1 (by omega) (by omega)
        (processLinks_idem base P [])
      calc collectLoop base (fun _ => P) (fun _ => true) none none maxStale (f + 1)
            ⟨[], 0, 0⟩ 0
          = collectLoop base (fun _ => P) (fun _ => true) none none maxStale f
              ⟨(processLinks base P []).1, 1, 0⟩ 1 := by
            simp only [collectLoop, discoverRound]
            rw [hif, hd]
        _ = ⟨(processLinks base P []).1, .stale, 1 + maxStale, maxStale,
             1 + (maxStale - 1)⟩ := by rw [hrun]
    rw [hres]
    have hpos : 0 < (processLinks base P []).2 := by omega
    refine ⟨rfl, rfl, ?_⟩
    rw [if_pos hpos]
    show 1 + maxStale = maxStale + 1
    omega

/-- C3: a round that adds zero new URLs increments the stale counter and a
round that adds at least one resets it to zero; over a fixed page source
(with no test/page limits and a clickable load-more control) the loop stops
through the stale condition with the counter exactly at the threshold, after
`maxStale` consecutive zero-growth rounds — that is, `maxStale` rounds in
total when even the first round adds nothing, and `maxStale + 1` rounds when
the first round adds URLs. -/
theorem C3_stale_rounds :
    (∀ (base : String) (pageLinks : Nat → List String) (clickOk : Nat → Bool)
        (tl mp : Option Nat) (maxStale : Nat) (st : DState),
        ((processLinks base (pageLinks st.clicks) st.urls).2 = 0 →
          roundStale (discoverRound base pageLinks clickOk tl mp maxStale st)
            = st.stale + 1) ∧
        (0 < (processLinks base (pageLinks st.clicks) st.urls).2 →
          roundStale (discoverRound base pageLinks clickOk tl mp maxStale st) = 0)) ∧
    (∀ (base : String) (P : List String) (maxStale fuel : Nat),
        1 ≤ maxStale → maxStale + 1 ≤ fuel →
        (collectLoop base (fun _ => P) (fun _ => true) none none maxStale fuel
            ⟨[], 0, 0⟩ 0).reason = .stale ∧
        (collectLoop base (fun _ => P) (fun _ => true) none none maxStale fuel
            ⟨[], 0, 0⟩ 0).stale = maxStale ∧
        (collectLoop base (fun _ => P) (fun _ => true) none none maxStale fuel
            ⟨[], 0, 0⟩ 0).rounds
          = maxStale + (if 0 < (processLinks base P []).2 then 1 else 0)) :=
  ⟨fun base pageLinks clickOk tl mp maxStale st =>
      discoverRound_staleCalc base pageLinks clickOk tl mp maxStale st,
   fun base P maxStale fuel hm hf => collectLoop_fixed_halt base P maxStale fuel hm hf⟩

theorem C3_witness :
    (collectLoop "https://x" (fun _ => ["/t5/abc-123"]) (fun _ => true) none none 3 5
        ⟨[], 0, 0⟩ 0).reason = StopReason.stale ∧
    (collectLoop "https://x" (fun _ => ["/t5/abc-123"]) (fun _ => true) none none 3 5
        ⟨[], 0, 0⟩ 0).stale = 3 ∧
    (collectLoop "https://x" (fun _ => ["/t5/abc-123"]) (fun _ => true) none none 3 5
        ⟨[], 0, 0⟩ 0).rounds
      = 3 + (if 0 < (processLinks "https://x" ["/t5/abc-123"] []).2 then 1 else 0) :=
  C3_stale_rounds.2 "https://x" ["/t5/abc-123"] 3 5 (by decide) (by decide)

theorem strData_append (a b : String) : (a ++ b).data = a.data ++ b.data := by
  cases a
  cases b
  rfl

theorem mem_takeWhile_pred {α : Type} (p : α → Bool) :
    ∀ (l : List α) (x : α), x ∈ l.takeWhile p → p x = true := by
  intro l
  induction l with
  | nil => intro x hx; simp [List.takeWhile] at hx
  | cons a l ih =>
    intro x hx
    rw [List.takeWhile_cons] at hx
    by_cases hp : p a = true
    · rw [if_pos hp] at hx
      rcases List.mem_cons.1 hx with rfl | hx
      · exact hp
      · exact ih x hx
    · rw [if_neg hp] at hx
      exact absurd hx (List.not_mem_nil x)

theorem all_stripQuery (cs : List Char) :
    (stripQuery cs).all (fun c => !(c == '?')) = true := by
  rw [List.all_eq_true]
  intro c hc
  unfold stripQuery at hc
  exact mem_takeWhile_pred (fun c => !(c == '?')) cs c hc

theorem all_of_sublist {α : Type} (p : α → Bool) {l1 l2 : List α}
    (hs : List.Sublist l2 l1) (h : l1.all p = true) : l2.all p = true := by
  rw [List.all_eq_true] at h ⊢
  intro a ha
  exact h a (hs.subset ha)

theorem noQM_canonicalize (base href : String) (hb : noQM base = true) :
    noQM (canonicalize base href) = true := by
  unfold canonicalize
  by_cases h : lcStartsWith (stripQuery href.data) "http".data = true
  · rw [if_pos h]
    exact all_stripQuery href.data
  · rw [if_neg h]
    unfold noQM
    rw [strData_append, strData_append, List.all_append, List.all_append]
    have h1 : base.data.all (fun c => !(c == '?')) = true := hb
    have h2 : ("/" : String).data.all (fun c => !(c == '?')) = true := by decide
    have h3 : (lstripSlash (stripQuery href.data)).all (fun c => !(c == '?')) = true :=
      all_of_sublist _ (List.dropWhile_sublist _) (all_stripQuery href.data)
    rw [h1, h2]
    exact h3

theorem canonicalize_shape (base href : String) :
    lcStartsWith (canonicalize base href).data "http".data = true ∨
    ∃ t, (canonicalize base href).data = base.data ++ '/' :: t := by
  unfold canonicalize
  by_cases h : lcStartsWith (stripQuery href.data) "http".data = true
  · rw [if_pos h]
    exact Or.inl h
  · rw [if_neg h]
    refine Or.inr ⟨lstripSlash (stripQuery href.data), ?_⟩
    rw [strData_append, strData_append, List.append_assoc]
    rfl

theorem validUrl_canonicalize (base href : String)
    (hs : hasNumericIdSuffix (canonicalize base href) = true) :
    ValidUrl base (canonicalize base href) :=
  ⟨hs, fun hb => noQM_canonicalize base href hb, canonicalize_shape base href⟩

theorem discoverRound_stop_urls (base : String) (pageLinks : Nat → List String)
    (clickOk : Nat → Bool) (tl mp : Option Nat) (maxStale : Nat) (st : DState)
    (us : List String) (r : StopReason) (st1 : DState)
    (h : discoverRound base pageLinks clickOk tl mp maxStale st = .stop us r st1) :
    us = (processLinks base (pageLinks st.clicks) st.urls).1 ∨
    us = (processLinks base (pageLinks st.clicks) st.urls).1.take (tl.getD 0) := by
  simp only [discoverRound] at h
  split at h
  · rename_i us2 r2 heq
    cases h
    exact decideStop_urls _ _ _ _ _ _ _ _ _ heq
  · cases h

theorem discoverRound_next_urls (base : String) (pageLinks : Nat → List String)
    (clickOk : Nat → Bool) (tl mp : Option Nat) (maxStale : Nat) (st : DState)
    (st1 : DState)
    (h : discoverRound base pageLinks clickOk tl mp maxStale st = .next st1) :
    st1.urls = (processLinks base (pageLinks st.clicks) st.urls).1 := by
  simp only [discoverRound] at h
  split at h
  · cases h
  · cases h
    rfl

theorem collectLoop_inv (base : String) (pageLinks : Nat → List String)
    (clickOk : Nat → Bool) (tl mp : Option Nat) (maxStale : Nat) :
    ∀ (fuel : Nat) (st : DState) (rounds : Nat),
      st.urls.Nodup → (∀ u ∈ st.urls, ValidUrl base u) →
      (collectLoop base pageLinks clickOk tl mp maxStale fuel st rounds).urls.Nodup ∧
      (∀ u ∈ (collectLoop base pageLinks clickOk tl mp maxStale fuel st rounds).urls,
        ValidUrl base u) := by
  intro fuel
  induction fuel with
  | zero => intro st rounds h1 h2; exact ⟨h1, h2⟩
  | succ f ih =>
    intro st rounds h1 h2
    have hpn : (processLinks base (pageLinks st.clicks) st.urls).1.Nodup :=
      processLinks_nodup base _ _ h1
    have hpv : ∀ u ∈ (processLinks base (pageLinks st.clicks) st.urls).1,
        ValidUrl base u := by
      intro u hu
      rcases processLinks_mem base _ _ u hu with h | ⟨ha, href, _, he⟩
      · exact h2 u h
      · subst he
        exact validUrl_canonicalize base href ha
    cases hro : discoverRound base pageLinks clickOk tl mp maxStale st with
    | stop us r st1 =>
      have hres : collectLoop base pageLinks clickOk tl mp maxStale (f + 1) st rounds
          = ⟨us, r, rounds + 1, st1.stale, st1.clicks⟩ := by
        simp only [collectLoop, hro]
      rw [hres]
      rcases discoverRound_stop_urls base pageLinks clickOk tl mp maxStale st us r st1 hro
        with he | he
      · subst he
        exact ⟨hpn, hpv⟩
      · subst he
        constructor
        · exact hpn.sublist (List.take_sublist _ _)
        · intro u hu
          exact hpv u (List.take_subset _ _ hu)
    | next st1 =>
      have hres : collectLoop base pageLinks clickOk tl mp maxStale (f + 1) st rounds
          = collectLoop base pageLinks clickOk tl mp maxStale f st1 (rounds + 1) := by
        simp only [collectLoop, hro]
      rw [hres]
      have hu1 : st1.urls = (processLinks base (pageLinks st.clicks) st.urls).1 :=
        discoverRound_next_urls base pageLinks clickOk tl mp maxStale st st1 hro
      apply ih
      · rw [hu1]
        exact hpn
      · rw [hu1]
        exact hpv

/-- C8: the scan step only ever appends (first-seen positions are preserved),
re-scanning the same links adds nothing (one entry per link across rounds),
and throughout the discovery loop the collected list stays duplicate-free
with every entry in canonical form: trailing numeric id of three or more
digits, query string stripped (whenever the thread base itself has no query
string), and either an absolute `http...` link or one resolved against the
thread base. -/
theorem C8_urls_canonical (base : String) :
    (∀ links urls, ∃ fresh, (processLinks base links urls).1 = urls ++ fresh) ∧
    (∀ links urls,
       processLinks base links (processLinks base links urls).1
         = ((processLinks base links urls).1, 0)) ∧
    (∀ (pageLinks : Nat → List String) (clickOk : Nat → Bool) (tl mp : Option Nat)
        (maxStale fuel : Nat) (st : DState) (rounds : Nat),
        st.urls.Nodup → (∀ u ∈ st.urls, ValidUrl base u) →
        (collectLoop base pageLinks clickOk tl mp maxStale fuel st rounds).urls.Nodup ∧
        (∀ u ∈ (collectLoop base pageLinks clickOk tl mp maxStale fuel st rounds).urls,
          ValidUrl base u)) := by
  refine ⟨?_, ?_, ?_⟩
  · intro links urls
    obtain ⟨t, ht, _⟩ := processLinks_shape base links urls
    exact ⟨t, ht⟩
  · intro links urls
    exact processLinks_idem base links urls
  · intro pageLinks clickOk tl mp maxStale fuel st rounds h1 h2
    exact collectLoop_inv base pageLinks clickOk tl mp maxStale fuel st rounds h1 h2

theorem C8_witness :
    (collectLoop "https://x/t5" (fun _ => ["/t5/a-111?p=2", "/t5/a-111", "b-22"])
        (fun _ => true) none none 2 9 ⟨[], 0, 0⟩ 0).urls.Nodup :=
  ((C8_urls_canonical "https://x/t5").2.2 (fun _ => ["/t5/a-111?p=2", "/t5/a-111", "b-22"])
    (fun _ => true) none none 2 9 ⟨[], 0, 0⟩ 0 (by simp) (by simp)).1
